import Mathlib

/-!
Shallow embedding of the vocabulary-drill service in src/main.py.

The program loads word-pair datasets from JSON files (with a relaxed,
comment-stripping parser), normalizes two record schemas (FR-DE and Latin)
into one entry shape, assigns 1-based sequence numbers, serves random quiz
items filtered by a known-pairs set and an exclusion string, and persists
the known set as a sorted JSON list.

File contents are modelled as strings; the directory listing of the words
folder is modelled as a list of (filename, raw content) pairs.  Parsed JSON
documents are modelled by the inductive type JValue; Python dynamic-type
errors (AttributeError, TypeError, ...) that the source catches per file are
modelled with Except Unit.
-/

namespace FrenchWoky

/-- ASCII subset of the Python whitespace class (covers the characters the
regular expressions and str.strip treat as whitespace; non-ASCII Unicode
whitespace is not modelled). -/
def isWS (c : Char) : Bool :=
  c = ' ' || c = '\t' || c = '\n' || c = '\r' || c = '\x0b' || c = '\x0c'

/-- Drop trailing characters satisfying p (via reverse). -/
def dropTrailing (p : Char → Bool) (l : List Char) : List Char :=
  (l.reverse.dropWhile p).reverse

/-- Python str.strip on a character list: remove leading and trailing
whitespace. -/
def pyStripCh (l : List Char) : List Char :=
  dropTrailing isWS (l.dropWhile isWS)

/-- Python str.strip on strings. -/
def pyStrip (s : String) : String :=
  ⟨pyStripCh s.data⟩

/-- Model of a parsed JSON document (the result of json.loads).  Numbers
keep their raw numeral text, which is enough to decide Python truthiness. -/
inductive JValue where
  | null : JValue
  | bool : Bool → JValue
  | num : String → JValue
  | str : String → JValue
  | arr : List JValue → JValue
  | obj : List (String × JValue) → JValue

/-- A JSON numeral is numerically zero iff its mantissa has a digit and all
of its mantissa digits are 0 (the constants NaN and Infinity contain no
mantissa digit and are truthy, matching Python floats). -/
def jsonNumIsZero (s : String) : Bool :=
  let m := s.data.takeWhile (fun c => !(c = 'e' || c = 'E'))
  m.any (·.isDigit) && m.all (fun c => !c.isDigit || c = '0')

/-- Python truthiness of a parsed JSON value. -/
def jTruthy : JValue → Bool
  | .null => false
  | .bool b => b
  | .num s => !jsonNumIsZero s
  | .str s => s ≠ ""
  | .arr xs => !xs.isEmpty
  | .obj fs => !fs.isEmpty

/-- Lookup in an object field list; on duplicate keys the last occurrence
wins, matching how json.loads builds a Python dict. -/
def dictGet (fs : List (String × JValue)) (k : String) : Option JValue :=
  match fs with
  | [] => none
  | (k', v) :: rest =>
    match dictGet rest k with
    | some w => some w
    | none => if k' = k then some v else none

/-- Key membership in an object field list. -/
def keyMem (fs : List (String × JValue)) (k : String) : Bool :=
  fs.any (fun p => p.1 = k)

/-- Python it.get(k): succeeds only on dicts; any other receiver raises
AttributeError (TypeError for ints), modelled as Except.error. -/
def pyGet (it : JValue) (k : String) : Except Unit (Option JValue) :=
  match it with
  | .obj fs => .ok (dictGet fs k)
  | _ => .error ()

/-- Python membership test k in it: key lookup on dicts, substring test on
strings, element equality on lists (only string elements can equal a
string); numbers, booleans and null raise TypeError. -/
def pyIn (k : String) (it : JValue) : Except Unit Bool :=
  match it with
  | .obj fs => .ok (keyMem fs k)
  | .str s => .ok (decide (k.data <:+: s.data))
  | .arr xs => .ok (xs.any (fun j => match j with | .str s => s = k | _ => false))
  | _ => .error ()

/-- Python expression (v or "").strip() where v is the result of a .get:
a missing key or falsy value yields the empty string, a truthy string is
stripped, and a truthy non-string raises AttributeError on .strip. -/
def strOrEmptyStrip (v : Option JValue) : Except Unit String :=
  match v with
  | none => .ok ""
  | some j =>
    if jTruthy j then
      match j with
      | .str s => .ok (pyStrip s)
      | _ => .error ()
    else .ok ""

/-- Python expression (it.get(k) or "").strip(). -/
def getStrOrEmpty (it : JValue) (k : String) : Except Unit String :=
  match pyGet it k with
  | .error e => .error e
  | .ok v => strOrEmptyStrip v

/-- Python chained expression (fs[k1] or fs[k2] or ... or "").strip() over a
dict: the first truthy alias value is used; all-falsy yields the empty
string; a truthy non-string raises on .strip. -/
def orChainStrip (fs : List (String × JValue)) (keys : List String) :
    Except Unit String :=
  strOrEmptyStrip
    (keys.findSome? (fun k => (dictGet fs k).bind
      (fun j => if jTruthy j then some j else none)))

/-- One normalized vocabulary entry as built by load_vocab (before sequence
numbers are assigned).  FR-DE records leave the Latin-only fields empty,
which matches how the handlers read the missing dict keys with a default of
the empty string. -/
structure Entry where
  fr : String
  de : String
  pron : String
  pos : String
  pp : String
  ex_la : String
  ex_de : String
  dataset : String
deriving DecidableEq, Repr, Inhabited

/-- The schema decision in load_vocab:
fname == 'latin.json' or 'lemma' in it or 'translation_de' in it,
with Python short-circuit evaluation. -/
def isLatinRecord (fname : String) (it : JValue) : Except Unit Bool :=
  if fname = "latin.json" then .ok true
  else
    match pyIn "lemma" it with
    | .error e => .error e
    | .ok true => .ok true
    | .ok false => pyIn "translation_de" it

/-- Latin schema mapping of one record (the first branch of the item loop in
load_vocab). -/
def processLatin (it : JValue) : Except Unit (Option Entry) :=
  match getStrOrEmpty it "lemma" with
  | .error e => .error e
  | .ok la =>
  match getStrOrEmpty it "translation_de" with
  | .error e => .error e
  | .ok de =>
  match getStrOrEmpty it "pos" with
  | .error e => .error e
  | .ok pos =>
  match getStrOrEmpty it "principal_parts" with
  | .error e => .error e
  | .ok pp =>
  match pyGet it "declension_example" with
  | .error e => .error e
  | .ok exv =>
  -- ex = it.get("declension_example") or {}
  let exj : JValue :=
    match exv with
    | some j => if jTruthy j then j else .obj []
    | none => .obj []
  -- ex.get("la")/(ex.get("de")) guarded by isinstance(ex, dict)
  let exFld : String → Except Unit String := fun k =>
    match exj with
    | .obj fs => strOrEmptyStrip (dictGet fs k)
    | _ => .ok ""
  match exFld "la" with
  | .error e => .error e
  | .ok ex_la =>
  match exFld "de" with
  | .error e => .error e
  | .ok ex_de =>
  if la ≠ "" ∧ de ≠ "" then
    .ok (some { fr := la, de := de, pron := "", pos := pos, pp := pp,
                ex_la := ex_la, ex_de := ex_de, dataset := "latin" })
  else .ok none

/-- FR-DE schema mapping of one record (the second branch of the item loop
in load_vocab); receivers other than dicts raise on .get. -/
def processFrde (it : JValue) : Except Unit (Option Entry) :=
  match it with
  | .obj fs =>
    match orChainStrip fs ["fr", "french", "fr_word"] with
    | .error e => .error e
    | .ok fr =>
    match orChainStrip fs ["de", "german", "de_word"] with
    | .error e => .error e
    | .ok de =>
    match orChainStrip fs ["pron", "pronunciation"] with
    | .error e => .error e
    | .ok pron =>
    if fr ≠ "" ∧ de ≠ "" then
      .ok (some { fr := fr, de := de, pron := pron, pos := "", pp := "",
                  ex_la := "", ex_de := "", dataset := "frde" })
    else .ok none
  | _ => .error ()

/-- Processing of a single record of a dataset file. -/
def processRecord (fname : String) (it : JValue) : Except Unit (Option Entry) :=
  match isLatinRecord fname it with
  | .error e => .error e
  | .ok true => processLatin it
  | .ok false => processFrde it

/-- Item loop of load_vocab over one file: a raised exception aborts the
remaining items of this file (the per-file try/except), keeping the entries
accumulated so far. -/
def processItems (fname : String) : List JValue → List Entry → List Entry
  | [], acc => acc
  | it :: rest, acc =>
    match processRecord fname it with
    | .error _ => acc
    | .ok none => processItems fname rest acc
    | .ok (some e) => processItems fname rest (acc ++ [e])

/-! ### Relaxed JSON parser: comment stripping -/

/-- Split a character list into lines at newline characters (the line
structure used by the MULTILINE anchors of re.sub). -/
def splitLinesCh : List Char → List (List Char)
  | [] => [[]]
  | '\n' :: t => [] :: splitLinesCh t
  | c :: t =>
    match splitLinesCh t with
    | [] => [[c]]
    | l :: ls => (c :: l) :: ls

/-- Join lines back with newline separators. -/
def joinLinesCh : List (List Char) → List Char
  | [] => []
  | [l] => l
  | l :: ls => l ++ '\n' :: joinLinesCh ls

/-- A line matching the pattern: optional whitespace then a double slash. -/
def isCommentLine (l : List Char) : Bool :=
  match l.dropWhile isWS with
  | '/' :: '/' :: _ => true
  | _ => false

/-- A line consisting solely of whitespace. -/
def isWsOnly (l : List Char) : Bool := l.all isWS

/-- Line-comment removal on the line list, modelling
re.sub of anchored-whitespace-double-slash-to-end-of-line with the
MULTILINE flag.  Because the whitespace class matches newlines, a match
starting at the head of a run of whitespace-only lines absorbs that whole
run when it ends in a comment line; the newline terminating the comment
line survives as an empty line.  The fuel argument is the line count. -/
def stripLinesAux : Nat → List (List Char) → List (List Char)
  | 0, ls => ls
  | _ + 1, [] => []
  | n + 1, l :: ls =>
    if isCommentLine l then [] :: stripLinesAux n ls
    else if isWsOnly l then
      match ls.span isWsOnly with
      | (run, c :: rs) =>
        if isCommentLine c then [] :: stripLinesAux n rs
        else l :: (run ++ c :: stripLinesAux n rs)
      | (_, []) => l :: ls
    else l :: stripLinesAux n ls

/-- First re.sub in parse_json_relaxed: remove whole-line comments. -/
def stripLineComments (s : String) : String :=
  ⟨joinLinesCh (stripLinesAux (splitLinesCh s.data).length (splitLinesCh s.data))⟩

/-- True when no adjacent occurrence of the character pair a, b appears in
the list. -/
def pairFree (a b : Char) : List Char → Bool
  | x :: y :: t => !(x = a && y = b) && pairFree a b (y :: t)
  | _ => true

/-- Find the nearest closing star-slash and return the remainder after it. -/
def findClose : List Char → Option (List Char)
  | [] => none
  | [_] => none
  | x :: y :: t => if x = '*' ∧ y = '/' then some t else findClose (y :: t)

/-- Block-comment removal, modelling the non-greedy slash-star to star-slash
re.sub with the DOTALL flag: each opener is removed together with everything
up to the nearest closer; an unclosed opener matches nothing and the rest of
the text is kept verbatim. -/
def stripBCAux : Nat → List Char → List Char
  | 0, s => s
  | _ + 1, [] => []
  | _ + 1, [c] => [c]
  | n + 1, x :: y :: t =>
    if x = '/' ∧ y = '*' then
      match findClose t with
      | some rest => stripBCAux n rest
      | none => x :: y :: t
    else x :: stripBCAux n (y :: t)

/-- Second re.sub in parse_json_relaxed: remove block comments. -/
def stripBlockComments (s : String) : String :=
  ⟨stripBCAux s.data.length s.data⟩

/-! ### Strict JSON parsing (model of json.loads)

The parser follows the JSON grammar accepted by json.loads, including the
NaN and Infinity constants.  Unicode escape decoding is simplified: a
surrogate escape is decoded in isolation rather than paired. -/

/-- JSON inter-token whitespace. -/
def jsonWs (c : Char) : Bool := c = ' ' || c = '\t' || c = '\n' || c = '\r'

def skipWs (s : List Char) : List Char := s.dropWhile jsonWs

def hexVal (c : Char) : Option Nat :=
  if c.isDigit then some (c.toNat - '0'.toNat)
  else if 'a' ≤ c ∧ c ≤ 'f' then some (c.toNat - 'a'.toNat + 10)
  else if 'A' ≤ c ∧ c ≤ 'F' then some (c.toNat - 'A'.toNat + 10)
  else none

/-- Parse the four hex digits of a unicode escape. -/
def parseHex4 : List Char → Option (Nat × List Char)
  | a :: b :: c :: d :: t =>
    match hexVal a, hexVal b, hexVal c, hexVal d with
    | some x, some y, some z, some w => some (((x * 16 + y) * 16 + z) * 16 + w, t)
    | _, _, _, _ => none
  | _ => none

/-- Parse the contents of a JSON string after the opening quote; returns the
decoded characters and the remainder after the closing quote.  Control
characters below 0x20 are rejected (strict mode). -/
def parseJString : Nat → List Char → Option (List Char × List Char)
  | 0, _ => none
  | _ + 1, [] => none
  | fuel + 1, c :: t =>
    if c = '"' then some ([], t)
    else if c = '\\' then
      match t with
      | [] => none
      | e :: t' =>
        let cont : Char → List Char → Option (List Char × List Char) :=
          fun ch rest =>
            (parseJString fuel rest).map (fun p => (ch :: p.1, p.2))
        if e = '"' then cont '"' t'
        else if e = '\\' then cont '\\' t'
        else if e = '/' then cont '/' t'
        else if e = 'b' then cont '\x08' t'
        else if e = 'f' then cont '\x0c' t'
        else if e = 'n' then cont '\n' t'
        else if e = 'r' then cont '\r' t'
        else if e = 't' then cont '\t' t'
        else if e = 'u' then
          match parseHex4 t' with
          | some (n, t'') => cont (Char.ofNat n) t''
          | none => none
        else none
    else if c.toNat < 0x20 then none
    else (parseJString fuel t).map (fun p => (c :: p.1, p.2))

/-- Parse a JSON numeral token (without the Infinity and NaN constants):
optional minus, integer part, optional fraction, optional exponent.  The
token text and the remainder are returned; trailing junk such as a lone
decimal point is left in the remainder, exactly as the numeral regex of
json.loads would. -/
def parseJNumber (s : List Char) : Option (List Char × List Char) :=
  let (sign, s1) :=
    match s with
    | '-' :: t => (['-'], t)
    | _ => (([] : List Char), s)
  match s1 with
  | '0' :: t =>
    let (frac, t1) := parseFrac t
    let (ex, t2) := parseExp t1
    some (sign ++ '0' :: (frac ++ ex), t2)
  | c :: t =>
    if c.isDigit then
      let (ds, t0) := t.span (·.isDigit)
      let (frac, t1) := parseFrac t0
      let (ex, t2) := parseExp t1
      some (sign ++ c :: ds ++ frac ++ ex, t2)
    else none
  | [] => none
where
  /-- Optional fraction part: a dot followed by at least one digit. -/
  parseFrac : List Char → List Char × List Char
    | '.' :: d :: t =>
      if d.isDigit then
        let (ds, t') := t.span (·.isDigit)
        ('.' :: d :: ds, t')
      else ([], '.' :: d :: t)
    | s => ([], s)
  /-- Optional exponent part: e or E, optional sign, at least one digit. -/
  parseExp : List Char → List Char × List Char
    | e :: rest =>
      if e = 'e' ∨ e = 'E' then
        match rest with
        | c :: t =>
          if c.isDigit then
            let (ds, t') := t.span (·.isDigit)
            (e :: c :: ds, t')
          else if (c = '+' ∨ c = '-') then
            match t with
            | d :: t' =>
              if d.isDigit then
                let (ds, t'') := t'.span (·.isDigit)
                (e :: c :: d :: ds, t'')
              else ([], e :: rest)
            | [] => ([], e :: rest)
          else ([], e :: rest)
        | [] => ([], [e])
      else ([], e :: rest)
    | [] => ([], [])

mutual
/-- Parse one JSON value; the input must start at a non-whitespace
character. -/
def parseVal : Nat → List Char → Option (JValue × List Char)
  | 0, _ => none
  | n + 1, s =>
    match s with
    | '{' :: t => parseObjFirst n (skipWs t)
    | '[' :: t => parseArrFirst n (skipWs t)
    | '"' :: t =>
      (parseJString (t.length + 1) t).map (fun p => (.str ⟨p.1⟩, p.2))
    | 't' :: 'r' :: 'u' :: 'e' :: t => some (.bool true, t)
    | 'f' :: 'a' :: 'l' :: 's' :: 'e' :: t => some (.bool false, t)
    | 'n' :: 'u' :: 'l' :: 'l' :: t => some (.null, t)
    | 'N' :: 'a' :: 'N' :: t => some (.num "NaN", t)
    | 'I' :: 'n' :: 'f' :: 'i' :: 'n' :: 'i' :: 't' :: 'y' :: t =>
      some (.num "Infinity", t)
    | '-' :: 'I' :: 'n' :: 'f' :: 'i' :: 'n' :: 'i' :: 't' :: 'y' :: t =>
      some (.num "-Infinity", t)
    | _ => (parseJNumber s).map (fun p => (.num ⟨p.1⟩, p.2))

/-- Array body directly after the opening bracket and whitespace. -/
def parseArrFirst : Nat → List Char → Option (JValue × List Char)
  | 0, _ => none
  | n + 1, s =>
    match s with
    | ']' :: t => some (.arr [], t)
    | _ => parseArrRest n s []

/-- Array elements: value, then comma-and-more or closing bracket. -/
def parseArrRest : Nat → List Char → List JValue → Option (JValue × List Char)
  | 0, _, _ => none
  | n + 1, s, acc =>
    match parseVal n s with
    | none => none
    | some (v, r) =>
      match skipWs r with
      | ',' :: t => parseArrRest n (skipWs t) (acc ++ [v])
      | ']' :: t => some (.arr (acc ++ [v]), t)
      | _ => none

/-- Object body directly after the opening brace and whitespace. -/
def parseObjFirst : Nat → List Char → Option (JValue × List Char)
  | 0, _ => none
  | n + 1, s =>
    match s with
    | '}' :: t => some (.obj [], t)
    | _ => parseObjRest n s []

/-- Object members: string key, colon, value, then comma-and-more or the
closing brace. -/
def parseObjRest : Nat → List Char → List (String × JValue) →
    Option (JValue × List Char)
  | 0, _, _ => none
  | n + 1, s, acc =>
    match s with
    | '"' :: t =>
      match parseJString (t.length + 1) t with
      | none => none
      | some (k, r) =>
        match skipWs r with
        | ':' :: t2 =>
          match parseVal n (skipWs t2) with
          | none => none
          | some (v, r2) =>
            match skipWs r2 with
            | ',' :: t3 => parseObjRest n (skipWs t3) (acc ++ [(⟨k⟩, v)])
            | '}' :: t3 => some (.obj (acc ++ [(⟨k⟩, v)]), t3)
            | _ => none
        | _ => none
    | _ => none
end

/-- Model of json.loads: parse one document and require only whitespace
after it. -/
def jsonParse (s : String) : Option JValue :=
  match parseVal (s.data.length + 1) (skipWs s.data) with
  | some (v, rest) => if skipWs rest = [] then some v else none
  | none => none

/-- parse_json_relaxed from load_vocab: strip whole-line comments, then
block comments, then parse strictly; a parse failure is the exception the
caller treats as a malformed file. -/
def parse_json_relaxed (text : String) : Option JValue :=
  jsonParse (stripBlockComments (stripLineComments text))

/-! ### File selection and ordering -/

/-- First embedded integer of a filename: the maximal digit run starting at
the first digit, as matched by the digit-run regex in file_key. -/
def firstNumber (name : String) : Option Nat :=
  match name.data.dropWhile (fun c => !c.isDigit) with
  | [] => none
  | l => some (digitsToNat (l.takeWhile (·.isDigit)) 0)
where
  digitsToNat : List Char → Nat → Nat
    | [], acc => acc
    | c :: t, acc => digitsToNat t (acc * 10 + (c.toNat - '0'.toNat))

/-- Comparison of the Python sort keys (number-or-infinity, name): files
with no embedded number sort after all numbered files, ties are broken by
the filename. -/
def fileLE (a b : String) : Bool :=
  match firstNumber a, firstNumber b with
  | some m, some n => decide (m < n) || (decide (m = n) && decide (a ≤ b))
  | some _, none => true
  | none, some _ => false
  | none, none => decide (a ≤ b)

/-- File selection rule of load_vocab: exclusive priority for latin.json,
otherwise natural sort by the embedded number with filename tie-break. -/
def selectFiles (files_all : List String) : List String :=
  if "latin.json" ∈ files_all then ["latin.json"]
  else files_all.mergeSort fileLE

/-- File loop body of load_vocab: look up the file content, parse it with
the relaxed parser, and process its records; a parse failure or a non-list
document contributes nothing (the file is skipped). -/
def processFile (listing : List (String × String)) (acc : List Entry)
    (fname : String) : List Entry :=
  match (listing.find? (fun p => p.1 = fname)).map Prod.snd with
  | none => acc
  | some raw =>
    match parse_json_relaxed raw with
    | none => acc
    | some (.arr items) => processItems fname items acc
    | some _ => acc

/-- The filename filter of load_vocab: the name ends with the dataset
extension. -/
def isJsonFile (n : String) : Bool := ".json".data.isSuffixOf n.data

/-- load_vocab over a model of the words directory: a list of
(filename, raw content) pairs.  Only .json files are considered, selected
and ordered by selectFiles; errors never escape, the worst case being an
empty vocabulary. -/
def load_vocab (listing : List (String × String)) : List Entry :=
  let files_all := (listing.map Prod.fst).filter isJsonFile
  let files := selectFiles files_all
  files.foldl (processFile listing) []

/-- An entry together with its assigned sequence number. -/
structure NEntry extends Entry where
  num : Nat
deriving DecidableEq, Repr, Inhabited

/-- Sequence number assignment in on_startup: enumerate from 1. -/
def numberEntries (l : List Entry) : List NEntry :=
  (l.enumFrom 1).map (fun p => { p.2 with num := p.1 })

/-- Startup loading: load the vocabulary and assign sequence numbers. -/
def on_startup (listing : List (String × String)) : List NEntry :=
  numberEntries (load_vocab listing)

/-! ### Quiz selector (the GET /test handler) -/

/-- Delimiter class of the exclude-splitting regex: comma or whitespace. -/
def isDelim (c : Char) : Bool := c = ',' || isWS c

/-- Maximal runs of non-delimiter characters, i.e. the result of the
re.split on delimiter runs with empty tokens filtered out. -/
def tokensAux : List Char → List Char → List String
  | [], cur => if cur.isEmpty then [] else [⟨cur.reverse⟩]
  | c :: t, cur =>
    if isDelim c then
      if cur.isEmpty then tokensAux t [] else ⟨cur.reverse⟩ :: tokensAux t []
    else tokensAux t (c :: cur)

/-- Tokens of the exclude string after splitting and dropping empties. -/
def tokensOf (s : String) : List String := tokensAux s.data []

/-- Digit run with optional single underscores between digits, the digit
grammar of the Python int constructor (restricted to ASCII digits). -/
def intDigitsOK : List Char → Bool
  | [] => false
  | c :: t => c.isDigit && intTail t
where
  intTail : List Char → Bool
    | [] => true
    | '_' :: c :: t => c.isDigit && intTail t
    | c :: t => c.isDigit && intTail t

/-- Numeric value of a digit run, skipping underscores. -/
def digitsVal : List Char → Nat → Nat
  | [], acc => acc
  | '_' :: t, acc => digitsVal t acc
  | c :: t, acc => digitsVal t (acc * 10 + (c.toNat - '0'.toNat))

/-- Model of the Python int constructor on a delimiter-free token: optional
sign then digits; anything else raises ValueError, modelled as none. -/
def pyInt (s : String) : Option Int :=
  match s.data with
  | '+' :: rest => if intDigitsOK rest then some (digitsVal rest 0) else none
  | '-' :: rest => if intDigitsOK rest then some (-(digitsVal rest 0 : Int)) else none
  | l => if intDigitsOK l then some (digitsVal l 0) else none

/-- Parsing of the exclude parameter in the test handler: the whole
generator runs under one try/except, so a single unparseable token makes
the exclusion set empty. -/
def parseExclude (s : String) : List Int :=
  let toks := tokensOf (pyStrip s)
  if toks.all (fun t => (pyInt t).isSome) then toks.filterMap pyInt else []

/-- The known-filtered pool: entries whose (fr, de) pair is not in the
known set. -/
def unknownPool (vocab : List NEntry) (known : List (String × String)) :
    List NEntry :=
  vocab.filter (fun it => !decide ((it.fr, it.de) ∈ known))

/-- The candidate pool after the known filter and the optional exclusion
filter, exactly as computed by the test handler. -/
def finalPool (vocab : List NEntry) (known : List (String × String))
    (exclude : Option String) : List NEntry :=
  let unknown := unknownPool vocab known
  match exclude with
  | none => unknown
  | some s =>
    if s = "" then unknown
    else
      let ex := parseExclude s
      if ex.isEmpty then unknown
      else unknown.filter (fun it => !ex.contains (it.num : Int))

/-- Boundary error of the handler: HTTP status code and detail message. -/
structure HTTPError where
  status : Nat
  detail : String
deriving DecidableEq, Repr

def invalidDirectionError : HTTPError :=
  { status := 400, detail := "Invalid direction. Use fr-de or de-fr" }

def noRemainingItemsError : HTTPError :=
  { status := 404,
    detail := "Keine weiteren Wörter für diesen Test. Markieren Sie einige als bekannt oder starten Sie die Sitzung neu." }

/-- Response payload of the test handler. -/
structure Payload where
  question : String
  answer : String
  pron : String
  fr : String
  de : String
  num : Nat
  pos : String
  pp : String
  ex_la : String
  ex_de : String
  dataset : String
deriving DecidableEq, Repr

/-- Payload construction for the chosen entry per direction. -/
def mkPayload (direction : String) (choice : NEntry) : Payload :=
  if direction = "fr-de" then
    { question := choice.fr, answer := choice.de, pron := choice.pron,
      fr := choice.fr, de := choice.de, num := choice.num, pos := choice.pos,
      pp := choice.pp, ex_la := choice.ex_la, ex_de := choice.ex_de,
      dataset := choice.dataset }
  else
    { question := choice.de, answer := choice.fr, pron := choice.pron,
      fr := choice.fr, de := choice.de, num := choice.num, pos := choice.pos,
      pp := choice.pp, ex_la := choice.ex_la, ex_de := choice.ex_de,
      dataset := choice.dataset }

/-- The GET /test handler.  The uniformly random draw of random.choice is
modelled by an arbitrary pick index reduced modulo the pool size: every
concrete draw corresponds to some pick, and every pick yields a pool
element. -/
def selectQuestion (vocab : List NEntry) (known : List (String × String))
    (direction : String) (exclude : Option String) (pick : Nat) :
    Except HTTPError Payload :=
  if direction = "fr-de" ∨ direction = "de-fr" then
    let pool := finalPool vocab known exclude
    if pool.isEmpty then .error noRemainingItemsError
    else .ok (mkPayload direction (pool.getD (pick % pool.length) default))
  else .error invalidDirectionError

/-! ### Known-pairs store and mark_known -/

/-- Lexicographic order on (fr, de) pairs, the Python tuple order used by
sorted in save_known. -/
def pairLE (p q : String × String) : Bool :=
  decide (p.1 < q.1) || (decide (p.1 = q.1) && decide (p.2 ≤ q.2))

/-- The sorted pair list that save_known serializes. -/
def sortedPairs (known : List (String × String)) : List (String × String) :=
  known.mergeSort pairLE

/-- save_known: the JSON document written to the known-words file, a list
of objects with fr and de fields, sorted lexicographically.  File writing
itself is transport; the persisted content is modelled as the parsed JSON
value. -/
def save_known (known : List (String × String)) : JValue :=
  .arr ((sortedPairs known).map (fun p => .obj [("fr", .str p.1), ("de", .str p.2)]))

/-- Python set.add on the list model of a set. -/
def addPair (acc : List (String × String)) (p : String × String) :
    List (String × String) :=
  if p ∈ acc then acc else acc ++ [p]

/-- Item loop of load_known: collect pairs whose fr and de fields are both
strings; a non-dict item raises inside the try block and the whole load
falls back to the empty set. -/
def loadKnownItems : List JValue → List (String × String) →
    List (String × String)
  | [], acc => acc
  | it :: rest, acc =>
    match it with
    | .obj fs =>
      match dictGet fs "fr", dictGet fs "de" with
      | some (.str f), some (.str d) => loadKnownItems rest (addPair acc (f, d))
      | _, _ => loadKnownItems rest acc
    | _ => []

/-- load_known on a parsed known-words file: iterating a non-list raises
(or yields items without a get method) and returns the empty set. -/
def load_known (j : JValue) : List (String × String) :=
  match j with
  | .arr items => loadKnownItems items []
  | _ => []

/-- The POST /mark_known handler: add the posted pair to the known set,
persist, and acknowledge.  No check against the vocabulary is made. -/
def mark_known (known : List (String × String)) (fr de : String) :
    List (String × String) × JValue × String :=
  let known' := addPair known (fr, de)
  (known', save_known known', "ok")

/-! ### Spec-side definitions for refinement comparison

These two definitions follow the words of the specification rather than the
source; they exist only to be compared against the source-derived
definitions above. -/

/-- Modelled from the claim wording for the relaxed parser: strip every
double-slash line comment wherever it occurs, including after JSON content
on the same line. -/
def claimStripLineAnywhere : Nat → List Char → List Char
  | 0, s => s
  | _ + 1, [] => []
  | n + 1, '/' :: '/' :: t => claimStripLineAnywhere n (t.dropWhile (· ≠ '\n'))
  | n + 1, c :: t => c :: claimStripLineAnywhere n t

/-- Modelled from the claim wording: remove line comments anywhere and
block comments, then the remainder is what should parse as strict JSON. -/
def claimStripComments (s : String) : String :=
  stripBlockComments ⟨claimStripLineAnywhere s.data.length s.data⟩

/-- Modelled from the claim wording for the exclude parameter: token-wise
tolerant parsing where each unparseable token is ignored individually. -/
def claimTokenwiseExclude (s : String) : List Int :=
  (tokensOf (pyStrip s)).filterMap pyInt

/-! ### Helper lemmas -/

theorem mkPayload_fr (d : String) (c : NEntry) : (mkPayload d c).fr = c.fr := by
  unfold mkPayload; split <;> rfl

theorem mkPayload_de (d : String) (c : NEntry) : (mkPayload d c).de = c.de := by
  unfold mkPayload; split <;> rfl

theorem mem_unknownPool_not_known {vocab : List NEntry}
    {known : List (String × String)} {a : NEntry}
    (h : a ∈ unknownPool vocab known) : (a.fr, a.de) ∉ known := by
  have := (List.mem_filter.mp h).2
  simpa using this

theorem mem_finalPool_subset {vocab : List NEntry}
    {known : List (String × String)} {exclude : Option String} {a : NEntry}
    (h : a ∈ finalPool vocab known exclude) : a ∈ unknownPool vocab known := by
  unfold finalPool at h
  match exclude with
  | none => exact h
  | some s =>
    simp only at h
    split at h
    · exact h
    · split at h
      · exact h
      · exact List.mem_of_mem_filter h

theorem addPair_mem (acc : List (String × String)) (p q : String × String) :
    q ∈ addPair acc p ↔ q ∈ acc ∨ q = p := by
  unfold addPair
  split
  · constructor
    · exact fun h => Or.inl h
    · rintro (h | rfl)
      · exact h
      · assumption
  · simp

/-! ### C1: selected entries are never in the known set -/

/-- C1: For every vocabulary list, known set, direction, excludeIds string
and random draw, whenever selectQuestion returns an entry, the pair of fr
and de fields of that entry is not a member of the known set. -/
theorem selectQuestion_never_known (vocab : List NEntry)
    (known : List (String × String)) (direction : String)
    (exclude : Option String) (pick : Nat) (p : Payload)
    (h : selectQuestion vocab known direction exclude pick = .ok p) :
    (p.fr, p.de) ∉ known := by
  unfold selectQuestion at h
  split at h
  · set pool := finalPool vocab known exclude with hpool
    by_cases he : pool.isEmpty
    · simp [he] at h
    · simp [he] at h
      have hlen : 0 < pool.length :=
        List.length_pos.mpr (fun hnil => he (by simp [hnil]))
      have hidx : pick % pool.length < pool.length := Nat.mod_lt _ hlen
      have hmem : pool[pick % pool.length]?.getD default ∈ pool := by
        rw [List.getElem?_eq_getElem hidx]
        exact List.getElem_mem hidx
      have hm2 : pool[pick % pool.length]?.getD default ∈ unknownPool vocab known :=
        mem_finalPool_subset hmem
      have hk := mem_unknownPool_not_known hm2
      rw [← h, mkPayload_fr, mkPayload_de]
      exact hk
  · simp at h

/-- Witness for C1 at a concrete input. -/
theorem selectQuestion_never_known_witness :
    selectQuestion [⟨⟨"chat", "Katze", "", "", "", "", "", "frde"⟩, 1⟩]
      [("chien", "Hund")] "fr-de" none 0
      = .ok ⟨"chat", "Katze", "", "chat", "Katze", 1, "", "", "", "", "frde"⟩ ∧
    (("chat", "Katze") : String × String) ∉ [(("chien", "Hund") : String × String)] := by
  refine ⟨rfl, ?_⟩
  exact selectQuestion_never_known
    [⟨⟨"chat", "Katze", "", "", "", "", "", "frde"⟩, 1⟩]
    [("chien", "Hund")] "fr-de" none 0
    ⟨"chat", "Katze", "", "chat", "Katze", 1, "", "", "", "", "frde"⟩ rfl

/-! ### C8: error discrimination of the test handler -/

/-- C8: a direction outside the two recognized values fails with the
invalid-direction error regardless of the vocabulary, known set or exclude
string (hence before any filtering); for a valid direction an empty
filtered pool fails with the pool-exhausted not-found error, whose
user-facing message is distinct; in particular an exclusion set that
empties the pool yields the pool-exhausted error, never a direction or
parsing error. -/
theorem selectQuestion_error_discrimination :
    (∀ (vocab : List NEntry) (known : List (String × String))
        (direction : String) (exclude : Option String) (pick : Nat),
      ¬(direction = "fr-de" ∨ direction = "de-fr") →
      selectQuestion vocab known direction exclude pick
        = .error invalidDirectionError) ∧
    (∀ (vocab : List NEntry) (known : List (String × String))
        (direction : String) (exclude : Option String) (pick : Nat),
      (direction = "fr-de" ∨ direction = "de-fr") →
      finalPool vocab known exclude = [] →
      selectQuestion vocab known direction exclude pick
        = .error noRemainingItemsError) ∧
    invalidDirectionError.status = 400 ∧
    noRemainingItemsError.status = 404 ∧
    invalidDirectionError.detail ≠ noRemainingItemsError.detail := by
  refine ⟨?_, ?_, rfl, rfl, by decide⟩
  · intro vocab known direction exclude pick hd
    unfold selectQuestion
    rw [if_neg hd]
  · intro vocab known direction exclude pick hd hp
    unfold selectQuestion
    rw [if_pos hd]
    simp [hp]

/-- Witness for C8 at concrete inputs: an unrecognized direction gives the
400 error, and an exclusion emptying a nonempty unknown pool gives the 404
pool-exhausted error. -/
theorem selectQuestion_error_discrimination_witness :
    selectQuestion [⟨⟨"a", "A", "", "", "", "", "", "frde"⟩, 3⟩] [] "xx" none 0
      = .error invalidDirectionError ∧
    selectQuestion [⟨⟨"a", "A", "", "", "", "", "", "frde"⟩, 3⟩] [] "fr-de"
      (some "3") 0 = .error noRemainingItemsError := by
  constructor
  · exact selectQuestion_error_discrimination.1 _ _ "xx" none 0 (by decide)
  · exact selectQuestion_error_discrimination.2.1 _ _ "fr-de" (some "3") 0
      (Or.inl rfl) (by decide)

/-! ### C6: sequence identifiers are 1..N and loading is deterministic -/

theorem enumFrom_map_num (f : Nat × Entry → NEntry)
    (hf : ∀ p, (f p).num = p.1) :
    ∀ (l : List Entry) (n : Nat),
      ((l.enumFrom n).map f).map (·.num) = List.range' n l.length := by
  intro l
  induction l with
  | nil => intro n; rfl
  | cons a t ih =>
    intro n
    simp only [List.enumFrom_cons, List.map_cons, List.length_cons,
      List.range'_succ, hf]
    rw [ih (n + 1)]

/-- C6: after startup loading, the sequence identifiers over the final
filtered, ordered vocabulary of length N are exactly the contiguous range
1..N in list order, and reloading with an identical listing reproduces
identical identifiers for every entry. -/
theorem on_startup_sequence_ids (listing listing' : List (String × String))
    (h : listing = listing') :
    (on_startup listing).map (·.num)
      = List.range' 1 (load_vocab listing).length ∧
    on_startup listing = on_startup listing' := by
  constructor
  · unfold on_startup numberEntries
    exact enumFrom_map_num _ (fun p => rfl) (load_vocab listing) 1
  · rw [h]

/-- Witness for C6 at a concrete two-file listing. -/
theorem on_startup_sequence_ids_witness :
    (on_startup [("l2.json", "[\x7b\"fr\":\"b\",\"de\":\"B\"\x7d]"),
                 ("l1.json", "[\x7b\"fr\":\"a\",\"de\":\"A\"\x7d]")]).map (·.num)
      = List.range' 1 (load_vocab [("l2.json", "[\x7b\"fr\":\"b\",\"de\":\"B\"\x7d]"),
                 ("l1.json", "[\x7b\"fr\":\"a\",\"de\":\"A\"\x7d]")]).length ∧
    on_startup [("l2.json", "[\x7b\"fr\":\"b\",\"de\":\"B\"\x7d]"),
                 ("l1.json", "[\x7b\"fr\":\"a\",\"de\":\"A\"\x7d]")]
      = on_startup [("l2.json", "[\x7b\"fr\":\"b\",\"de\":\"B\"\x7d]"),
                 ("l1.json", "[\x7b\"fr\":\"a\",\"de\":\"A\"\x7d]")] :=
  on_startup_sequence_ids _ _ rfl

/-! ### C10: mark_known performs no validation against the vocabulary -/

/-- C10: for every pair of strings, mark_known acknowledges with ok,
inserts the pair into the known set and persists the updated set, even when
no vocabulary entry carries that pair; and such a phantom pair does not
change the pool of quiz-eligible entries. -/
theorem mark_known_no_validation (vocab : List NEntry)
    (known : List (String × String)) (fr de : String)
    (h : ∀ e ∈ vocab, ¬(e.fr = fr ∧ e.de = de)) :
    (mark_known known fr de).2.2 = "ok" ∧
    (fr, de) ∈ (mark_known known fr de).1 ∧
    (mark_known known fr de).2.1 = save_known ((mark_known known fr de).1) ∧
    unknownPool vocab ((mark_known known fr de).1)
      = unknownPool vocab known := by
  refine ⟨rfl, ?_, rfl, ?_⟩
  · exact (addPair_mem known (fr, de) (fr, de)).mpr (Or.inr rfl)
  · unfold unknownPool mark_known
    apply List.filter_congr
    intro e he
    have hne : ((e.fr, e.de) : String × String) ≠ (fr, de) := by
      intro hcontra
      exact h e he ⟨congrArg Prod.fst hcontra, congrArg Prod.snd hcontra⟩
    have : ((e.fr, e.de) ∈ addPair known (fr, de)) ↔ ((e.fr, e.de) ∈ known) := by
      rw [addPair_mem]
      exact ⟨fun hh => hh.resolve_right hne, Or.inl⟩
    simp [this]

/-- Witness for C10: a phantom pair matching no vocabulary entry is
acknowledged, stored, persisted, and leaves the pool unchanged. -/
theorem mark_known_no_validation_witness :
    (mark_known [("x", "X")] "ghost" "Geist").2.2 = "ok" ∧
    ("ghost", "Geist") ∈ (mark_known [("x", "X")] "ghost" "Geist").1 ∧
    (mark_known [("x", "X")] "ghost" "Geist").2.1
      = save_known ((mark_known [("x", "X")] "ghost" "Geist").1) ∧
    unknownPool [⟨⟨"chat", "Katze", "", "", "", "", "", "frde"⟩, 1⟩]
        ((mark_known [("x", "X")] "ghost" "Geist").1)
      = unknownPool [⟨⟨"chat", "Katze", "", "", "", "", "", "frde"⟩, 1⟩]
          [("x", "X")] :=
  mark_known_no_validation _ _ "ghost" "Geist" (by decide)

/-! ### C2: file selection and ordering -/

theorem fileLE_trans (a b c : String) (h1 : fileLE a b = true)
    (h2 : fileLE b c = true) : fileLE a c = true := by
  unfold fileLE at h1 h2 ⊢
  cases ha : firstNumber a <;> cases hb : firstNumber b <;>
    cases hc : firstNumber c <;>
    simp only [ha, hb, hc, Bool.or_eq_true, Bool.and_eq_true,
      decide_eq_true_eq] at h1 h2 ⊢ <;>
  first
  | trivial
  | exact (Bool.false_ne_true h1).elim
  | exact (Bool.false_ne_true h2).elim
  | exact le_trans h1 h2
  | (rcases h1 with h1 | ⟨rfl, h1⟩ <;> rcases h2 with h2 | ⟨rfl, h2⟩
     · exact Or.inl (lt_trans h1 h2)
     · exact Or.inl h1
     · exact Or.inl h2
     · exact Or.inr ⟨rfl, le_trans h1 h2⟩)

theorem fileLE_total (a b : String) : fileLE a b || fileLE b a := by
  unfold fileLE
  cases ha : firstNumber a <;> cases hb : firstNumber b <;>
    simp only [Bool.or_eq_true, Bool.and_eq_true, decide_eq_true_eq]
  · exact le_total a b
  · exact Or.inr trivial
  · exact Or.inl trivial
  · rename_i m n
    rcases Nat.lt_trichotomy m n with h | h | h
    · exact Or.inl (Or.inl h)
    · rcases le_total a b with hab | hab
      · exact Or.inl (Or.inr ⟨h, hab⟩)
      · exact Or.inr (Or.inr ⟨h.symm, hab⟩)
    · exact Or.inr (Or.inl h)

/-- C2: if latin.json is among the dataset files it is selected
exclusively; otherwise the selection is a permutation of all dataset files
ordered by the first embedded filename integer (files without a number
last) with ties broken by filename. -/
theorem selectFiles_spec (files_all : List String) :
    ("latin.json" ∈ files_all → selectFiles files_all = ["latin.json"]) ∧
    ("latin.json" ∉ files_all →
      (selectFiles files_all).Perm files_all ∧
      List.Pairwise (fun x y => fileLE x y = true) (selectFiles files_all)) := by
  constructor
  · intro h; unfold selectFiles; rw [if_pos h]
  · intro h; unfold selectFiles; rw [if_neg h]
    exact ⟨List.mergeSort_perm files_all fileLE,
      List.sorted_mergeSort (fun x y z => fileLE_trans x y z)
        fileLE_total files_all⟩

/-- Witness for C2: exclusive Latin priority on one listing, and the
numeric ordering property on the latin-free listing from the spec. -/
theorem selectFiles_spec_witness :
    selectFiles ["b.json", "latin.json"] = ["latin.json"] ∧
    (selectFiles ["list2.json", "list10.json", "list1.json"]).Perm
      ["list2.json", "list10.json", "list1.json"] ∧
    List.Pairwise (fun x y => fileLE x y = true)
      (selectFiles ["list2.json", "list10.json", "list1.json"]) :=
  ⟨(selectFiles_spec _).1 (by decide),
   ((selectFiles_spec _).2 (by decide)).1,
   ((selectFiles_spec _).2 (by decide)).2⟩

/-! ### C9: known-pairs store round trip -/

theorem pairLE_trans (p q r : String × String) (h1 : pairLE p q = true)
    (h2 : pairLE q r = true) : pairLE p r = true := by
  unfold pairLE at h1 h2 ⊢
  simp only [Bool.or_eq_true, Bool.and_eq_true, decide_eq_true_eq] at h1 h2 ⊢
  rcases h1 with h1 | ⟨he1, h1⟩ <;> rcases h2 with h2 | ⟨he2, h2⟩
  · exact Or.inl (lt_trans h1 h2)
  · exact Or.inl (he2 ▸ h1)
  · exact Or.inl (he1 ▸ h2)
  · exact Or.inr ⟨he1.trans he2, le_trans h1 h2⟩

theorem pairLE_total (p q : String × String) : pairLE p q || pairLE q p := by
  unfold pairLE
  simp only [Bool.or_eq_true, Bool.and_eq_true, decide_eq_true_eq]
  rcases lt_trichotomy p.1 q.1 with h | h | h
  · exact Or.inl (Or.inl h)
  · rcases le_total p.2 q.2 with h2 | h2
    · exact Or.inl (Or.inr ⟨h, h2⟩)
    · exact Or.inr (Or.inr ⟨h.symm, h2⟩)
  · exact Or.inr (Or.inl h)

theorem dictGet_pair_fr (f d : JValue) :
    dictGet [("fr", f), ("de", d)] "fr" = some f := by
  simp [dictGet]

theorem dictGet_pair_de (f d : JValue) :
    dictGet [("fr", f), ("de", d)] "de" = some d := by
  simp [dictGet]

theorem loadKnownItems_mem (l : List (String × String)) :
    ∀ (acc : List (String × String)) (q : String × String),
      q ∈ loadKnownItems
        (l.map (fun p => JValue.obj [("fr", .str p.1), ("de", .str p.2)])) acc
      ↔ q ∈ acc ∨ q ∈ l := by
  induction l with
  | nil => intro acc q; simp [loadKnownItems]
  | cons p t ih =>
    intro acc q
    simp only [List.map_cons, loadKnownItems, dictGet_pair_fr, dictGet_pair_de]
    rw [ih (addPair acc (p.1, p.2)) q]
    rw [show ((p.1, p.2) : String × String) = p from rfl]
    rw [addPair_mem]
    simp only [List.mem_cons]
    tauto

/-- C9: saving a set of pairs and loading it back returns exactly the same
set, and the saved list is sorted lexicographically by the pair. -/
theorem known_store_roundtrip (pairs : List (String × String)) :
    (∀ p, p ∈ load_known (save_known pairs) ↔ p ∈ pairs) ∧
    (sortedPairs pairs).Perm pairs ∧
    List.Pairwise (fun x y => pairLE x y = true) (sortedPairs pairs) := by
  have hperm : (sortedPairs pairs).Perm pairs := List.mergeSort_perm pairs pairLE
  refine ⟨?_, hperm,
    List.sorted_mergeSort (fun x y z => pairLE_trans x y z) pairLE_total pairs⟩
  intro p
  unfold save_known load_known
  rw [loadKnownItems_mem (sortedPairs pairs) [] p]
  simp only [List.not_mem_nil, false_or]
  exact hperm.mem_iff

/-! ### C7: stored terms are non-empty after trimming -/

theorem dropWhile_dropWhile (p : Char → Bool) (l : List Char) :
    (l.dropWhile p).dropWhile p = l.dropWhile p := by
  induction l with
  | nil => rfl
  | cons c t ih =>
    by_cases h : p c
    · simp [List.dropWhile_cons, h, ih]
    · simp [List.dropWhile_cons, h]

theorem dropWhile_dropTrailing (p : Char → Bool) :
    ∀ l : List Char, l.dropWhile p = l →
      (dropTrailing p l).dropWhile p = dropTrailing p l
  | [], _ => rfl
  | c :: t, h => by
    have hc : p c = false := by
      rw [List.dropWhile_cons] at h
      by_cases hp : p c
      · rw [if_pos hp] at h
        have hle := (List.dropWhile_sublist p (l := t)).length_le
        have h2 := congrArg List.length h
        simp at h2
        omega
      · exact Bool.eq_false_iff.mpr hp
    unfold dropTrailing
    rw [List.reverse_cons, List.dropWhile_append]
    split
    · simp [List.dropWhile_cons, hc]
    · rw [List.reverse_append]
      simp [List.dropWhile_cons, hc]

theorem dropTrailing_idem (p : Char → Bool) (l : List Char) :
    dropTrailing p (dropTrailing p l) = dropTrailing p l := by
  unfold dropTrailing
  rw [List.reverse_reverse, dropWhile_dropWhile]

theorem pyStripCh_idem (l : List Char) : pyStripCh (pyStripCh l) = pyStripCh l := by
  unfold pyStripCh
  have h1 : (l.dropWhile isWS).dropWhile isWS = l.dropWhile isWS :=
    dropWhile_dropWhile _ _
  rw [dropWhile_dropTrailing isWS (l.dropWhile isWS) h1, dropTrailing_idem]

theorem pyStrip_idem (s : String) : pyStrip (pyStrip s) = pyStrip s := by
  unfold pyStrip
  exact congrArg String.mk (pyStripCh_idem s.data)

theorem strOrEmptyStrip_ok (v : Option JValue) (s : String)
    (h : strOrEmptyStrip v = .ok s) : pyStrip s = s := by
  rcases v with _ | j
  · have h' : (Except.ok "" : Except Unit String) = Except.ok s := h
    rw [← Except.ok.inj h']
    rfl
  · have h' : (if jTruthy j then
        match j with
        | JValue.str s0 => (Except.ok (pyStrip s0) : Except Unit String)
        | _ => Except.error ()
      else Except.ok "") = Except.ok s := h
    clear h
    rename' h' => h
    by_cases hj : jTruthy j = true
    · rw [if_pos hj] at h
      cases j with
      | str s0 =>
        rw [← Except.ok.inj h]
        exact pyStrip_idem s0
      | null => exact Except.noConfusion h
      | bool b => exact Except.noConfusion h
      | num n => exact Except.noConfusion h
      | arr xs => exact Except.noConfusion h
      | obj fs => exact Except.noConfusion h
    · rw [if_neg hj] at h
      rw [← Except.ok.inj h]
      rfl

theorem getStrOrEmpty_ok (it : JValue) (k : String) (s : String)
    (h : getStrOrEmpty it k = .ok s) : pyStrip s = s := by
  unfold getStrOrEmpty at h
  split at h
  · exact Except.noConfusion h
  · exact strOrEmptyStrip_ok _ _ h

theorem orChainStrip_ok (fs : List (String × JValue)) (keys : List String)
    (s : String) (h : orChainStrip fs keys = .ok s) : pyStrip s = s :=
  strOrEmptyStrip_ok _ _ h

theorem processLatin_ok_some (it : JValue) (e : Entry)
    (h : processLatin it = .ok (some e)) :
    e.fr ≠ "" ∧ pyStrip e.fr = e.fr ∧ e.de ≠ "" ∧ pyStrip e.de = e.de := by
  unfold processLatin at h
  rcases h1 : getStrOrEmpty it "lemma" with e1 | la
  all_goals simp only [h1] at h
  · exact Except.noConfusion h
  rcases h2 : getStrOrEmpty it "translation_de" with e2 | de
  all_goals simp only [h2] at h
  · exact Except.noConfusion h
  rcases h3 : getStrOrEmpty it "pos" with e3 | pos
  all_goals simp only [h3] at h
  · exact Except.noConfusion h
  rcases h4 : getStrOrEmpty it "principal_parts" with e4 | pp
  all_goals simp only [h4] at h
  · exact Except.noConfusion h
  rcases h5 : pyGet it "declension_example" with e5 | exv
  all_goals simp only [h5] at h
  · exact Except.noConfusion h
  split at h
  · exact Except.noConfusion h
  rename_i exla h6
  split at h
  · exact Except.noConfusion h
  rename_i exde h7
  split at h
  · rename_i hcond
    cases h
    refine ⟨hcond.1, getStrOrEmpty_ok it "lemma" la h1, hcond.2,
      getStrOrEmpty_ok it "translation_de" de h2⟩
  · exact Option.noConfusion (Except.ok.inj h)

theorem processFrde_ok_some (it : JValue) (e : Entry)
    (h : processFrde it = .ok (some e)) :
    e.fr ≠ "" ∧ pyStrip e.fr = e.fr ∧ e.de ≠ "" ∧ pyStrip e.de = e.de := by
  unfold processFrde at h
  match it with
  | .obj fs =>
    rcases h1 : orChainStrip fs ["fr", "french", "fr_word"] with e1 | fr
    all_goals simp only [h1] at h
    · exact Except.noConfusion h
    rcases h2 : orChainStrip fs ["de", "german", "de_word"] with e2 | de
    all_goals simp only [h2] at h
    · exact Except.noConfusion h
    rcases h3 : orChainStrip fs ["pron", "pronunciation"] with e3 | pron
    all_goals simp only [h3] at h
    · exact Except.noConfusion h
    split at h
    · rename_i hcond
      cases h
      refine ⟨hcond.1, orChainStrip_ok fs _ fr h1, hcond.2,
        orChainStrip_ok fs _ de h2⟩
    · exact Option.noConfusion (Except.ok.inj h)
  | .null => exact Except.noConfusion h
  | .bool b => exact Except.noConfusion h
  | .num n => exact Except.noConfusion h
  | .str s => exact Except.noConfusion h
  | .arr xs => exact Except.noConfusion h

theorem processRecord_ok_some (fname : String) (it : JValue) (e : Entry)
    (h : processRecord fname it = .ok (some e)) :
    e.fr ≠ "" ∧ pyStrip e.fr = e.fr ∧ e.de ≠ "" ∧ pyStrip e.de = e.de := by
  unfold processRecord at h
  split at h
  · exact Except.noConfusion h
  · exact processLatin_ok_some _ _ h
  · exact processFrde_ok_some _ _ h

theorem processItems_mem (fname : String) :
    ∀ (items : List JValue) (acc : List Entry) (e : Entry),
      e ∈ processItems fname items acc →
      e ∈ acc ∨ ∃ it, processRecord fname it = .ok (some e) := by
  intro items
  induction items with
  | nil => intro acc e h; exact Or.inl h
  | cons it rest ih =>
    intro acc e h
    unfold processItems at h
    split at h
    · exact Or.inl h
    · exact ih acc e h
    · rename_i a heq
      rcases ih _ e h with h' | h'
      · rcases List.mem_append.mp h' with h'' | h''
        · exact Or.inl h''
        · right
          exact ⟨it, (List.mem_singleton.mp h'') ▸ heq⟩
      · exact Or.inr h'

theorem processFile_mem (listing : List (String × String)) (acc : List Entry)
    (fname : String) (e : Entry) (h : e ∈ processFile listing acc fname) :
    e ∈ acc ∨ ∃ fn it, processRecord fn it = .ok (some e) := by
  unfold processFile at h
  split at h
  · exact Or.inl h
  · split at h
    · exact Or.inl h
    · rcases processItems_mem fname _ acc e h with h' | ⟨it, h'⟩
      · exact Or.inl h'
      · exact Or.inr ⟨fname, it, h'⟩
    · exact Or.inl h

theorem foldl_processFile_mem (listing : List (String × String)) :
    ∀ (files : List String) (acc : List Entry) (e : Entry),
      e ∈ files.foldl (processFile listing) acc →
      e ∈ acc ∨ ∃ fn it, processRecord fn it = .ok (some e) := by
  intro files
  induction files with
  | nil => intro acc e h; exact Or.inl h
  | cons f fs ih =>
    intro acc e h
    rw [List.foldl_cons] at h
    rcases ih _ e h with h' | h'
    · exact processFile_mem listing acc f e h'
    · exact Or.inr h'

/-- C7: every entry produced by load_vocab has a source and a target term
that are non-empty after trimming whitespace; records failing this are
never stored. -/
theorem load_vocab_terms_nonempty (listing : List (String × String))
    (e : Entry) (he : e ∈ load_vocab listing) :
    pyStrip e.fr ≠ "" ∧ pyStrip e.de ≠ "" := by
  unfold load_vocab at he
  rcases foldl_processFile_mem listing _ _ _ he with h | ⟨fn, it, h⟩
  · exact absurd h (List.not_mem_nil e)
  · obtain ⟨hfr, hfr2, hde, hde2⟩ := processRecord_ok_some fn it e h
    rw [hfr2, hde2]
    exact ⟨hfr, hde⟩

theorem selectFiles_singleton (f : String) (h : f ≠ "latin.json") :
    selectFiles [f] = [f] := by
  unfold selectFiles
  rw [if_neg (by simp [Ne.symm h])]
  exact List.mergeSort_singleton f

/-- Witness for C7: a record with padded terms is stored trimmed and
non-empty. -/
theorem load_vocab_terms_nonempty_witness :
    pyStrip (("chat" : String)) ≠ "" ∧ pyStrip (("Katze" : String)) ≠ "" := by
  have hload : load_vocab [("a.json", "[\x7b\"fr\":\" chat \",\"de\":\"Katze\"\x7d]")]
      = [⟨"chat", "Katze", "", "", "", "", "", "frde"⟩] := by
    show (selectFiles ["a.json"]).foldl
      (processFile [("a.json", "[\x7b\"fr\":\" chat \",\"de\":\"Katze\"\x7d]")]) []
      = [⟨"chat", "Katze", "", "", "", "", "", "frde"⟩]
    rw [selectFiles_singleton "a.json" (by decide)]
    rfl
  have he : (⟨"chat", "Katze", "", "", "", "", "", "frde"⟩ : Entry)
      ∈ load_vocab [("a.json", "[\x7b\"fr\":\" chat \",\"de\":\"Katze\"\x7d]")] := by
    rw [hload]
    exact List.mem_singleton_self _
  exact load_vocab_terms_nonempty _ _ he

/-! ### C4: exclude parsing is all-or-nothing, not token-wise -/

/-- C4 counterexample: with the exclude string holding the valid token 1
and the unparseable token abc, the claimed token-wise parsing would exclude
sequence id 1 and empty the pool, but the handler discards the whole
exclusion set and happily returns the entry with num 1. -/
theorem exclude_tokenwise_counterexample :
    claimTokenwiseExclude "1 abc" = [1] ∧
    parseExclude "1 abc" = [] ∧
    selectQuestion [⟨⟨"chat", "Katze", "", "", "", "", "", "frde"⟩, 1⟩] []
      "fr-de" (some "1 abc") 0
      = .ok ⟨"chat", "Katze", "", "chat", "Katze", 1, "", "", "", "", "frde"⟩ :=
  ⟨rfl, rfl, rfl⟩

/-- C4 amended: parsing of the exclude string is tolerant but
all-or-nothing: if every token parses as an integer the full set is applied
as exclusions, while a single unparseable token silently cancels the entire
exclusion set (no error surfaces, and the request behaves exactly as if no
exclude string had been given). -/
theorem exclude_all_or_nothing (s : String) :
    ((∀ t ∈ tokensOf (pyStrip s), (pyInt t).isSome) →
      parseExclude s = (tokensOf (pyStrip s)).filterMap pyInt) ∧
    ((∃ t ∈ tokensOf (pyStrip s), pyInt t = none) →
      parseExclude s = [] ∧
      ∀ (vocab : List NEntry) (known : List (String × String))
        (direction : String) (pick : Nat),
        selectQuestion vocab known direction (some s) pick
          = selectQuestion vocab known direction none pick) := by
  constructor
  · intro h
    unfold parseExclude
    rw [if_pos (List.all_eq_true.mpr h)]
  · rintro ⟨t, ht, htn⟩
    have hall : (tokensOf (pyStrip s)).all (fun t => (pyInt t).isSome) = false := by
      rcases hv : (tokensOf (pyStrip s)).all (fun t => (pyInt t).isSome) with _ | _
      · rfl
      · have := List.all_eq_true.mp hv t ht
        rw [htn] at this
        exact Option.noConfusion (Option.isSome_iff_exists.mp this).choose_spec
    have hpe : parseExclude s = [] := by
      unfold parseExclude
      rw [if_neg (by rw [hall]; exact Bool.false_ne_true)]
    refine ⟨hpe, ?_⟩
    intro vocab known direction pick
    have hfp : finalPool vocab known (some s) = finalPool vocab known none := by
      show (if s = "" then unknownPool vocab known
        else
          let ex := parseExclude s
          if ex.isEmpty then unknownPool vocab known
          else (unknownPool vocab known).filter
            (fun it => !ex.contains (it.num : Int)))
        = unknownPool vocab known
      by_cases hs : s = ""
      · rw [if_pos hs]
      · rw [if_neg hs]
        show (let ex := parseExclude s
          if ex.isEmpty then unknownPool vocab known
          else (unknownPool vocab known).filter
            (fun it => !ex.contains (it.num : Int)))
          = unknownPool vocab known
        rw [hpe]
        rfl
    unfold selectQuestion
    rw [hfp]

/-- Witness for C4 amended at concrete strings: an all-valid exclude string
is applied in full; one bad token cancels everything and the handler result
matches the no-exclude call. -/
theorem exclude_all_or_nothing_witness :
    parseExclude " 3,4  5 "
      = (tokensOf (pyStrip " 3,4  5 ")).filterMap pyInt ∧
    (parseExclude "1 abc" = [] ∧
      ∀ (vocab : List NEntry) (known : List (String × String))
        (direction : String) (pick : Nat),
        selectQuestion vocab known direction (some "1 abc") pick
          = selectQuestion vocab known direction none pick) :=
  ⟨(exclude_all_or_nothing " 3,4  5 ").1 (by decide),
   (exclude_all_or_nothing "1 abc").2 ⟨"abc", by decide, by decide⟩⟩

/-! ### C3: schema decision also keys on the filename -/

/-- C3 counterexample, refuting both discrepancies of the claim.  First,
the schema decision is not an iff over the record fields: a record with
neither a lemma nor a translation_de field is nevertheless treated as the
Latin schema when it sits in latin.json, where the claimed field-only
criterion would treat it as FR-DE and keep it; the code instead drops it.
Second, alias selection is not by first PRESENT alias: in a record whose
fr alias is present with the empty string, the claimed first-present rule
would read the empty sourceTerm and drop the record, but the code skips
the falsy value and reads the french alias, keeping the entry. -/
theorem latin_schema_counterexample :
    isLatinRecord "latin.json"
      (.obj [("fr", .str "chat"), ("de", .str "Katze")]) = .ok true ∧
    keyMem [("fr", JValue.str "chat"), ("de", JValue.str "Katze")] "lemma"
      = false ∧
    keyMem [("fr", JValue.str "chat"), ("de", JValue.str "Katze")]
      "translation_de" = false ∧
    processRecord "latin.json"
      (.obj [("fr", .str "chat"), ("de", .str "Katze")]) = .ok none ∧
    processFrde (.obj [("fr", .str "chat"), ("de", .str "Katze")])
      = .ok (some ⟨"chat", "Katze", "", "", "", "", "", "frde"⟩) ∧
    dictGet [("fr", JValue.str ""), ("french", JValue.str "chat"),
             ("de", JValue.str "Katze")] "fr" = some (.str "") ∧
    processRecord "list1.json"
      (.obj [("fr", .str ""), ("french", .str "chat"), ("de", .str "Katze")])
      = .ok (some ⟨"chat", "Katze", "", "", "", "", "", "frde"⟩) :=
  ⟨rfl, rfl, rfl, rfl, rfl, rfl, rfl⟩

theorem strOrEmptyStrip_none : strOrEmptyStrip none = .ok "" := rfl

theorem strOrEmptyStrip_str (s : String) :
    strOrEmptyStrip (some (.str s)) = .ok (pyStrip s) := by
  show (if jTruthy (.str s) then (Except.ok (pyStrip s) : Except Unit String)
    else .ok "") = .ok (pyStrip s)
  by_cases h : s = ""
  · subst h
    rw [if_neg (by simp [jTruthy])]
    rfl
  · rw [if_pos (by simp [jTruthy, h])]

theorem getStrOrEmpty_obj (fs : List (String × JValue)) (k : String) :
    getStrOrEmpty (.obj fs) k = strOrEmptyStrip (dictGet fs k) := rfl

/-- C3 amended: a record in an object shape is treated as the Latin schema
iff the file is named latin.json or the record carries a lemma or a
translation_de field; Latin records map lemma to the source term and
translation_de to the target term with part-of-speech and principal parts;
other records follow the FR-DE schema where the first truthy source alias
is used, so that for instance the french alias works. -/
theorem schema_decision_amended :
    (∀ (fname : String) (fs : List (String × JValue)),
      isLatinRecord fname (.obj fs)
        = .ok (decide (fname = "latin.json") || keyMem fs "lemma"
            || keyMem fs "translation_de")) ∧
    (∀ lemmaV trV posV : String,
      pyStrip lemmaV ≠ "" → pyStrip trV ≠ "" →
      processRecord "list1.json"
        (.obj [("lemma", .str lemmaV), ("translation_de", .str trV),
               ("pos", .str posV)])
        = .ok (some ⟨pyStrip lemmaV, pyStrip trV, "", pyStrip posV, "", "",
            "", "latin"⟩)) ∧
    (∀ frV deV : String, pyStrip frV ≠ "" → pyStrip deV ≠ "" →
      processRecord "list1.json" (.obj [("french", .str frV), ("de", .str deV)])
        = .ok (some ⟨pyStrip frV, pyStrip deV, "", "", "", "", "", "frde"⟩)) := by
  refine ⟨?_, ?_, ?_⟩
  · intro fname fs
    unfold isLatinRecord
    by_cases hf : fname = "latin.json"
    · rw [if_pos hf]
      simp [hf]
    · rw [if_neg hf]
      have hin : pyIn "lemma" (.obj fs) = .ok (keyMem fs "lemma") := rfl
      rw [hin]
      rcases hk : keyMem fs "lemma" with _ | _
      · have hin2 : pyIn "translation_de" (.obj fs)
            = .ok (keyMem fs "translation_de") := rfl
        simp [hf, hk, hin2]
      · simp [hf, hk]
  · intro lemmaV trV posV hl ht
    have hlat : isLatinRecord "list1.json"
        (.obj [("lemma", .str lemmaV), ("translation_de", .str trV),
               ("pos", .str posV)]) = .ok true := by
      unfold isLatinRecord
      rw [if_neg (by decide)]
      have hin : pyIn "lemma" (.obj [("lemma", .str lemmaV),
          ("translation_de", .str trV), ("pos", .str posV)])
          = .ok true := by
        show Except.ok (keyMem [("lemma", JValue.str lemmaV),
          ("translation_de", .str trV), ("pos", .str posV)] "lemma") = .ok true
        rw [show keyMem [("lemma", JValue.str lemmaV),
          ("translation_de", .str trV), ("pos", .str posV)] "lemma"
          = true from by simp [keyMem]]
      rw [hin]
    have g1 : getStrOrEmpty (.obj [("lemma", .str lemmaV),
        ("translation_de", .str trV), ("pos", .str posV)]) "lemma"
        = .ok (pyStrip lemmaV) := by
      rw [getStrOrEmpty_obj, show dictGet [("lemma", JValue.str lemmaV),
        ("translation_de", .str trV), ("pos", .str posV)] "lemma"
        = some (.str lemmaV) from by simp [dictGet], strOrEmptyStrip_str]
    have g2 : getStrOrEmpty (.obj [("lemma", .str lemmaV),
        ("translation_de", .str trV), ("pos", .str posV)]) "translation_de"
        = .ok (pyStrip trV) := by
      rw [getStrOrEmpty_obj, show dictGet [("lemma", JValue.str lemmaV),
        ("translation_de", .str trV), ("pos", .str posV)] "translation_de"
        = some (.str trV) from by simp [dictGet], strOrEmptyStrip_str]
    have g3 : getStrOrEmpty (.obj [("lemma", .str lemmaV),
        ("translation_de", .str trV), ("pos", .str posV)]) "pos"
        = .ok (pyStrip posV) := by
      rw [getStrOrEmpty_obj, show dictGet [("lemma", JValue.str lemmaV),
        ("translation_de", .str trV), ("pos", .str posV)] "pos"
        = some (.str posV) from by simp [dictGet], strOrEmptyStrip_str]
    have g4 : getStrOrEmpty (.obj [("lemma", .str lemmaV),
        ("translation_de", .str trV), ("pos", .str posV)]) "principal_parts"
        = .ok "" := by
      rw [getStrOrEmpty_obj, show dictGet [("lemma", JValue.str lemmaV),
        ("translation_de", .str trV), ("pos", .str posV)] "principal_parts"
        = none from by simp [dictGet]]
      rfl
    have g5 : pyGet (.obj [("lemma", .str lemmaV),
        ("translation_de", .str trV), ("pos", .str posV)]) "declension_example"
        = .ok none := by
      show Except.ok (dictGet [("lemma", JValue.str lemmaV),
        ("translation_de", .str trV), ("pos", .str posV)]
        "declension_example") = .ok none
      rw [show dictGet [("lemma", JValue.str lemmaV),
        ("translation_de", .str trV), ("pos", .str posV)]
        "declension_example" = none from by simp [dictGet]]
    simp only [processRecord, hlat, processLatin, g1, g2, g3, g4, g5,
      dictGet, strOrEmptyStrip_none]
    rw [if_pos ⟨hl, ht⟩]
  · intro frV deV hf hd
    have hf' : frV ≠ "" := fun h => hf (by rw [h]; rfl)
    have hd' : deV ≠ "" := fun h => hd (by rw [h]; rfl)
    have hlat : isLatinRecord "list1.json"
        (.obj [("french", .str frV), ("de", .str deV)]) = .ok false := by
      unfold isLatinRecord
      rw [if_neg (by decide)]
      have hin : pyIn "lemma" (.obj [("french", .str frV), ("de", .str deV)])
          = .ok false := by
        show Except.ok (keyMem [("french", JValue.str frV),
          ("de", .str deV)] "lemma") = .ok false
        rw [show keyMem [("french", JValue.str frV), ("de", .str deV)] "lemma"
          = false from by simp [keyMem]]
      rw [hin]
      show pyIn "translation_de" (.obj [("french", .str frV), ("de", .str deV)])
        = .ok false
      show Except.ok (keyMem [("french", JValue.str frV),
        ("de", .str deV)] "translation_de") = .ok false
      rw [show keyMem [("french", JValue.str frV), ("de", .str deV)]
        "translation_de" = false from by simp [keyMem]]
    have g1 : orChainStrip [("french", .str frV), ("de", .str deV)]
        ["fr", "french", "fr_word"] = .ok (pyStrip frV) := by
      unfold orChainStrip
      rw [show (["fr", "french", "fr_word"].findSome? (fun k =>
        (dictGet [("french", JValue.str frV), ("de", .str deV)] k).bind
          (fun j => if jTruthy j then some j else none)))
        = some (.str frV) from by simp [List.findSome?, dictGet, jTruthy, hf']]
      exact strOrEmptyStrip_str frV
    have g2 : orChainStrip [("french", .str frV), ("de", .str deV)]
        ["de", "german", "de_word"] = .ok (pyStrip deV) := by
      unfold orChainStrip
      rw [show (["de", "german", "de_word"].findSome? (fun k =>
        (dictGet [("french", JValue.str frV), ("de", .str deV)] k).bind
          (fun j => if jTruthy j then some j else none)))
        = some (.str deV) from by simp [List.findSome?, dictGet, jTruthy, hd']]
      exact strOrEmptyStrip_str deV
    have g3 : orChainStrip [("french", .str frV), ("de", .str deV)]
        ["pron", "pronunciation"] = .ok "" := by
      unfold orChainStrip
      rw [show (["pron", "pronunciation"].findSome? (fun k =>
        (dictGet [("french", JValue.str frV), ("de", .str deV)] k).bind
          (fun j => if jTruthy j then some j else none)))
        = none from by simp [List.findSome?, dictGet]]
      rfl
    simp only [processRecord, hlat, processFrde, g1, g2, g3]
    rw [if_pos ⟨hf, hd⟩]

/-- Witness for C3 amended at concrete records. -/
theorem schema_decision_amended_witness :
    isLatinRecord "b.json" (.obj [("lemma", JValue.str "canis")])
      = .ok (decide (("b.json" : String) = "latin.json")
          || keyMem [("lemma", JValue.str "canis")] "lemma"
          || keyMem [("lemma", JValue.str "canis")] "translation_de") ∧
    processRecord "list1.json"
      (.obj [("lemma", .str "canis"), ("translation_de", .str "Hund"),
             ("pos", .str "n")])
      = .ok (some ⟨pyStrip "canis", pyStrip "Hund", "", pyStrip "n", "", "",
          "", "latin"⟩) ∧
    processRecord "list1.json"
      (.obj [("french", .str "chat"), ("de", .str "Katze")])
      = .ok (some ⟨pyStrip "chat", pyStrip "Katze", "", "", "", "", "",
          "frde"⟩) :=
  ⟨schema_decision_amended.1 "b.json" [("lemma", JValue.str "canis")],
   schema_decision_amended.2.1 "canis" "Hund" "n" (by decide) (by decide),
   schema_decision_amended.2.2 "chat" "Katze" (by decide) (by decide)⟩

/-! ### C5: line comments are only stripped at line starts -/

/-- C5 counterexample: the text is valid JSON once the trailing line
comment is removed as the claim describes, yet the relaxed parser fails on
it, because the line-comment pattern is anchored at the line start. -/
theorem relaxed_parser_counterexample :
    parse_json_relaxed "[1] // c" = none ∧
    claimStripComments "[1] // c" = "[1] " ∧
    jsonParse "[1] " = some (.arr [.num "1"]) :=
  ⟨rfl, rfl, rfl⟩

theorem splitLinesCh_no_newline (l : List Char) (h : ∀ c ∈ l, c ≠ '\n') :
    splitLinesCh l = [l] := by
  induction l with
  | nil => rfl
  | cons c t ih =>
    have hc : c ≠ '\n' := h c (List.mem_cons_self c t)
    have ht : splitLinesCh t = [t] := ih (fun x hx => h x (List.mem_cons_of_mem c hx))
    simp [splitLinesCh, hc, ht]

theorem splitLinesCh_append_nl (a x : List Char) (h : ∀ c ∈ a, c ≠ '\n') :
    splitLinesCh (a ++ '\n' :: x) = a :: splitLinesCh x := by
  induction a with
  | nil => simp [splitLinesCh]
  | cons c t ih =>
    have hc : c ≠ '\n' := h c (List.mem_cons_self c t)
    have ht := ih (fun y hy => h y (List.mem_cons_of_mem c hy))
    simp [splitLinesCh, hc, ht]

theorem isCommentLine_slashes (b : List Char) :
    isCommentLine ('/' :: '/' :: b) = true := by
  have h : isWS '/' = false := rfl
  simp [isCommentLine, List.dropWhile_cons, h]

theorem stripLinesAux_cons_else (n : Nat) (l : List Char)
    (ls : List (List Char)) (h1 : isCommentLine l = false)
    (h2 : isWsOnly l = false) :
    stripLinesAux (n + 1) (l :: ls) = l :: stripLinesAux n ls := by
  simp [stripLinesAux, h1, h2]

theorem stripLinesAux_comment (n : Nat) (l : List Char)
    (ls : List (List Char)) (h1 : isCommentLine l = true) :
    stripLinesAux (n + 1) (l :: ls) = [] :: stripLinesAux n ls := by
  simp [stripLinesAux, h1]

theorem stripLinesAux_ws_last (n : Nat) (l : List Char)
    (h1 : isCommentLine l = false) (h2 : isWsOnly l = true) :
    stripLinesAux (n + 1) [l] = [l] := by
  simp [stripLinesAux, h1, h2]

theorem stripBCAux_nil (n : Nat) : stripBCAux n [] = [] := by
  cases n <;> rfl

theorem stripBCAux_two (n : Nat) (x y : Char) (t : List Char) :
    stripBCAux (n + 1) (x :: y :: t)
      = if x = '/' ∧ y = '*' then
          (match findClose t with
           | some rest => stripBCAux n rest
           | none => x :: y :: t)
        else x :: stripBCAux n (y :: t) := rfl

theorem pairFree_head (a b x y : Char) (t : List Char)
    (h : pairFree a b (x :: y :: t) = true) : ¬(x = a ∧ y = b) := by
  have h' : (!(decide (x = a) && decide (y = b))
      && pairFree a b (y :: t)) = true := h
  rw [Bool.and_eq_true] at h'
  have h1 := h'.1
  rintro ⟨rfl, rfl⟩
  simp at h1

theorem pairFree_tail (a b x : Char) (l : List Char)
    (h : pairFree a b (x :: l) = true) : pairFree a b l = true := by
  cases l with
  | nil => rfl
  | cons y t =>
    have h' : (!(decide (x = a) && decide (y = b))
        && pairFree a b (y :: t)) = true := h
    rw [Bool.and_eq_true] at h'
    exact h'.2

theorem findClose_cons (x y : Char) (t : List Char)
    (h : ¬(x = '*' ∧ y = '/')) :
    findClose (x :: y :: t) = findClose (y :: t) := by
  show (if x = '*' ∧ y = '/' then some t else findClose (y :: t))
    = findClose (y :: t)
  rw [if_neg h]

theorem findClose_marker (v w : List Char)
    (hv : pairFree '*' '/' v = true) :
    findClose (v ++ '*' :: '/' :: w) = some w := by
  induction v with
  | nil =>
    show (if ('*' : Char) = '*' ∧ ('/' : Char) = '/' then some w
      else findClose ('/' :: w)) = some w
    rw [if_pos ⟨rfl, rfl⟩]
  | cons x v' ih =>
    have ht : pairFree '*' '/' v' = true := pairFree_tail _ _ _ _ hv
    have hstep : findClose ((x :: v') ++ '*' :: '/' :: w)
        = findClose (v' ++ '*' :: '/' :: w) := by
      cases v' with
      | nil =>
        show findClose (x :: '*' :: '/' :: w) = findClose ('*' :: '/' :: w)
        exact findClose_cons x '*' ('/' :: w) (fun hc => absurd hc.2 (by decide))
      | cons y v'' =>
        show findClose (x :: y :: (v'' ++ '*' :: '/' :: w))
          = findClose (y :: (v'' ++ '*' :: '/' :: w))
        exact findClose_cons x y (v'' ++ '*' :: '/' :: w)
          (fun hc => pairFree_head '*' '/' x y v'' hv hc)
    rw [hstep]
    exact ih ht

theorem findClose_length (t : List Char) :
    ∀ rest, findClose t = some rest → rest.length ≤ t.length := by
  induction t with
  | nil => intro rest h; exact Option.noConfusion h
  | cons x t' ih =>
    intro rest h
    cases t' with
    | nil => exact Option.noConfusion h
    | cons y u =>
      by_cases hc : x = '*' ∧ y = '/'
      · have h' : some u = some rest := by
          rw [← h]
          show some u = if x = '*' ∧ y = '/' then some u else findClose (y :: u)
          rw [if_pos hc]
        cases Option.some.inj h'
        simp only [List.length_cons]
        omega
      · have h' : findClose (y :: u) = some rest := by
          rw [← h, findClose_cons x y u hc]
        have := ih rest h'
        simp only [List.length_cons] at this ⊢
        omega

theorem stripBCAux_fuel : ∀ (n : Nat) (s : List Char) (m : Nat),
    s.length ≤ n → s.length ≤ m → stripBCAux n s = stripBCAux m s := by
  intro n
  induction n with
  | zero =>
    intro s m h1 h2
    have hs : s = [] := List.eq_nil_of_length_eq_zero (Nat.le_zero.mp h1)
    subst hs
    rw [stripBCAux_nil, stripBCAux_nil]
  | succ n ih =>
    intro s m h1 h2
    cases s with
    | nil => rw [stripBCAux_nil, stripBCAux_nil]
    | cons x s' =>
      cases m with
      | zero => simp at h2
      | succ m' =>
        cases s' with
        | nil => rfl
        | cons y t =>
          rw [stripBCAux_two, stripBCAux_two]
          simp only [List.length_cons] at h1 h2
          by_cases hc : x = '/' ∧ y = '*'
          · rw [if_pos hc, if_pos hc]
            cases hfc : findClose t with
            | none => rfl
            | some rest =>
              have hr := findClose_length t rest hfc
              exact ih rest m' (by omega) (by omega)
          · rw [if_neg hc, if_neg hc]
            rw [ih (y :: t) m' (by simp; omega) (by simp; omega)]

theorem stripBCAux_copy : ∀ (u rest : List Char) (n : Nat),
    pairFree '/' '*' u = true →
    (∀ c, rest.head? = some c → c ≠ '*') →
    stripBCAux (u.length + n) (u ++ rest) = u ++ stripBCAux n rest := by
  intro u
  induction u with
  | nil => intro rest n _ _; simp
  | cons c u' ih =>
    intro rest n hu hb
    have hu' : pairFree '/' '*' u' = true := pairFree_tail _ _ _ _ hu
    have hlen : (c :: u').length + n = (u'.length + n) + 1 := by
      simp only [List.length_cons]
      omega
    rw [hlen]
    show stripBCAux ((u'.length + n) + 1) (c :: (u' ++ rest))
      = c :: (u' ++ stripBCAux n rest)
    cases hsplit : u' ++ rest with
    | nil =>
      rcases List.append_eq_nil.mp hsplit with ⟨hu0, hr0⟩
      subst hu0
      subst hr0
      rw [stripBCAux_nil]
      rfl
    | cons y t =>
      have hcy : ¬(c = '/' ∧ y = '*') := by
        cases hcu : u' with
        | nil =>
          subst hcu
          rintro ⟨h1, h2⟩
          have hhd : rest.head? = some y := by
            rw [show rest = y :: t from hsplit]
            rfl
          exact hb y hhd h2
        | cons y' u'' =>
          subst hcu
          have hy : y' = y := by
            have : y' :: (u'' ++ rest) = y :: t := hsplit
            exact (List.cons.inj this).1
          exact fun hc => pairFree_head '/' '*' c y' u'' hu ⟨hc.1, hy ▸ hc.2⟩
      rw [stripBCAux_two, if_neg hcy]
      rw [show (y :: t) = u' ++ rest from hsplit.symm]
      rw [ih rest n hu' hb]

theorem stripBlockComments_block (u v w : String)
    (hu : pairFree '/' '*' u.data = true)
    (hv : pairFree '*' '/' v.data = true) :
    stripBlockComments (u ++ "/*" ++ v ++ "*/" ++ w)
      = u ++ stripBlockComments w := by
  have hdata : (u ++ "/*" ++ v ++ "*/" ++ w).data
      = u.data ++ '/' :: '*' :: (v.data ++ '*' :: '/' :: w.data) := by
    rw [String.data_append, String.data_append, String.data_append,
      String.data_append,
      show ("/*" : String).data = ['/', '*'] from rfl,
      show ("*/" : String).data = ['*', '/'] from rfl]
    simp
  unfold stripBlockComments
  rw [hdata]
  apply String.ext
  show stripBCAux (u.data ++ '/' :: '*' :: (v.data ++ '*' :: '/' :: w.data)).length
      (u.data ++ '/' :: '*' :: (v.data ++ '*' :: '/' :: w.data))
    = (u ++ ⟨stripBCAux w.data.length w.data⟩).data
  have hlen : (u.data ++ '/' :: '*' :: (v.data ++ '*' :: '/' :: w.data)).length
      = u.data.length + ((v.data ++ '*' :: '/' :: w.data).length + 2) := by
    simp only [List.length_append, List.length_cons]
  rw [hlen]
  rw [stripBCAux_copy u.data ('/' :: '*' :: (v.data ++ '*' :: '/' :: w.data))
    ((v.data ++ '*' :: '/' :: w.data).length + 2) hu
    (fun c hc => by
      cases Option.some.inj hc
      decide)]
  have hmid : stripBCAux ((v.data ++ '*' :: '/' :: w.data).length + 2)
      ('/' :: '*' :: (v.data ++ '*' :: '/' :: w.data))
      = stripBCAux w.data.length w.data := by
    rw [show (v.data ++ '*' :: '/' :: w.data).length + 2
      = ((v.data ++ '*' :: '/' :: w.data).length + 1) + 1 from rfl]
    rw [stripBCAux_two, if_pos ⟨rfl, rfl⟩,
      findClose_marker v.data w.data hv]
    show stripBCAux ((v.data ++ '*' :: '/' :: w.data).length + 1) w.data
      = stripBCAux w.data.length w.data
    apply stripBCAux_fuel
    · simp only [List.length_append, List.length_cons]
      omega
    · exact Nat.le_refl _
  rw [hmid, String.data_append]

/-- C5 amended: the relaxed parser strips a double-slash line comment only
when it begins its line (after optional whitespace) — for arbitrary
single-line content a and comment text b, a full comment line after a
content line is removed (its terminating newline survives) and parsing is
unaffected, while a double-slash comment appearing after JSON content on
the same line is left in place, so the text reaching the strict parser
still holds it; block comments are stripped anywhere — for arbitrary u
(holding no opener) and v (holding no closer), the block comment in
u /* v */ w is removed, leaving u followed by w with its own block
comments stripped. -/
theorem comment_stripping_amended (a b : String)
    (ha : ∀ c ∈ a.data, c ≠ '\n') (hb : ∀ c ∈ b.data, c ≠ '\n')
    (hcm : isCommentLine a.data = false) (hws : isWsOnly a.data = false) :
    stripLineComments (a ++ "\n//" ++ b) = a ++ "\n" ∧
    stripLineComments (a ++ "\n") = a ++ "\n" ∧
    parse_json_relaxed (a ++ "\n//" ++ b) = parse_json_relaxed (a ++ "\n") ∧
    (isCommentLine (a ++ " //" ++ b).data = false →
      stripLineComments (a ++ " //" ++ b) = a ++ " //" ++ b) ∧
    (∀ u v w : String, pairFree '/' '*' u.data = true →
      pairFree '*' '/' v.data = true →
      stripBlockComments (u ++ "/*" ++ v ++ "*/" ++ w)
        = u ++ stripBlockComments w) := by
  have hdata1 : (a ++ "\n//" ++ b).data
      = a.data ++ '\n' :: ('/' :: '/' :: b.data) := by
    rw [String.data_append, String.data_append,
      show ("\n//" : String).data = ['\n', '/', '/'] from rfl]
    simp
  have hdata2 : (a ++ "\n").data = a.data ++ '\n' :: [] := by
    rw [String.data_append, show ("\n" : String).data = ['\n'] from rfl]
  have hsplit1 : splitLinesCh ((a ++ "\n//" ++ b).data)
      = [a.data, '/' :: '/' :: b.data] := by
    rw [hdata1, splitLinesCh_append_nl a.data _ ha,
      splitLinesCh_no_newline ('/' :: '/' :: b.data) ?_]
    intro c hc
    simp only [List.mem_cons] at hc
    rcases hc with rfl | rfl | hc
    · decide
    · decide
    · exact hb c hc
  have hsplit2 : splitLinesCh ((a ++ "\n").data) = [a.data, []] := by
    rw [hdata2, splitLinesCh_append_nl a.data _ ha]
    rfl
  have h1 : stripLineComments (a ++ "\n//" ++ b) = a ++ "\n" := by
    unfold stripLineComments
    rw [hsplit1, List.length_cons, List.length_cons, List.length_nil,
      stripLinesAux_cons_else _ _ _ hcm hws,
      stripLinesAux_comment _ _ _ (isCommentLine_slashes b.data)]
    apply String.ext
    show joinLinesCh [a.data, []] = (a ++ "\n").data
    rw [hdata2]
    rfl
  have h2 : stripLineComments (a ++ "\n") = a ++ "\n" := by
    unfold stripLineComments
    rw [hsplit2, List.length_cons, List.length_cons, List.length_nil,
      stripLinesAux_cons_else _ _ _ hcm hws,
      stripLinesAux_ws_last _ ([] : List Char) rfl rfl]
    apply String.ext
    show joinLinesCh [a.data, []] = (a ++ "\n").data
    rw [hdata2]
    rfl
  refine ⟨h1, h2, ?_, ?_, fun u v w hu hv => stripBlockComments_block u v w hu hv⟩
  · unfold parse_json_relaxed
    rw [h1, h2]
  · intro hnc
    have hdata3 : (a ++ " //" ++ b).data
        = a.data ++ ' ' :: '/' :: '/' :: b.data := by
      rw [String.data_append, String.data_append,
        show (" //" : String).data = [' ', '/', '/'] from rfl]
      simp
    rw [hdata3] at hnc
    have hws3 : isWsOnly (a.data ++ ' ' :: '/' :: '/' :: b.data) = false := by
      have hm : ('/' : Char) ∈ a.data ++ ' ' :: '/' :: '/' :: b.data := by simp
      rcases hv : isWsOnly (a.data ++ ' ' :: '/' :: '/' :: b.data) with _ | _
      · rfl
      · have := List.all_eq_true.mp hv '/' hm
        exact absurd this (by decide)
    have hsplit3 : splitLinesCh ((a ++ " //" ++ b).data)
        = [a.data ++ ' ' :: '/' :: '/' :: b.data] := by
      rw [hdata3]
      apply splitLinesCh_no_newline
      intro c hc
      rcases List.mem_append.mp hc with hc | hc
      · exact ha c hc
      · simp only [List.mem_cons] at hc
        rcases hc with rfl | rfl | rfl | hc

        · decide
        · decide
        · decide
        · exact hb c hc
    unfold stripLineComments
    rw [hsplit3, List.length_cons, List.length_nil,
      stripLinesAux_cons_else _ _ _ hnc hws3]
    apply String.ext
    show joinLinesCh [a.data ++ ' ' :: '/' :: '/' :: b.data]
      = (a ++ " //" ++ b).data
    rw [hdata3]
    rfl

/-- Witness for C5 amended at a concrete JSON text, line comment, and
block comment. -/
theorem comment_stripping_amended_witness :
    stripLineComments ("[1]" ++ "\n//" ++ " c") = "[1]" ++ "\n" ∧
    stripLineComments ("[1]" ++ "\n") = "[1]" ++ "\n" ∧
    parse_json_relaxed ("[1]" ++ "\n//" ++ " c")
      = parse_json_relaxed ("[1]" ++ "\n") ∧
    stripLineComments ("[1]" ++ " //" ++ " c") = "[1]" ++ " //" ++ " c" ∧
    stripBlockComments ("[1, " ++ "/*" ++ " two " ++ "*/" ++ "3]")
      = "[1, " ++ stripBlockComments "3]" :=
  ⟨(comment_stripping_amended "[1]" " c" (by decide) (by decide)
      (by decide) (by decide)).1,
   (comment_stripping_amended "[1]" " c" (by decide) (by decide)
      (by decide) (by decide)).2.1,
   (comment_stripping_amended "[1]" " c" (by decide) (by decide)
      (by decide) (by decide)).2.2.1,
   (comment_stripping_amended "[1]" " c" (by decide) (by decide)
      (by decide) (by decide)).2.2.2.1 (by decide),
   (comment_stripping_amended "[1]" " c" (by decide) (by decide)
      (by decide) (by decide)).2.2.2.2 "[1, " " two " "3]" (by decide)
      (by decide)⟩

end FrenchWoky
